import Mathlib

/-!
Verification of the multi-resolution resampling subsystem of `dolphin/utils.py`:
`take_looks`, `_make_dims_multiples`, `upsample_nearest`, and the GPU capability
probe `gpu_is_available`.  Arrays are embedded as (dtype-tagged) nested lists of
element values; NaN is a distinguished sentinel value; the reduction function
passed to `take_looks` (looked up by name on the backend module in the source)
is embedded as an abstract function from the row-major list of a block's
elements to a single value.
-/

namespace Dolphin

/-- An array element: a boolean, a finite floating value (modelled as an
integer — the claims only ever involve integral values), or the floating
not-a-number sentinel. -/
inductive Val where
  | b (v : Bool)
  | f (q : Int)
  | nan
deriving DecidableEq

/-- The element type of an array (`arr.dtype` in the source): boolean or
floating point. -/
inductive Dtype where
  | bool
  | float
deriving DecidableEq

/-- The zero element of a dtype (what `xp.zeros` fills with). -/
def Dtype.zero : Dtype → Val
  | .bool => .b false
  | .float => .f 0

/-- A 2D or 3D array: a dtype tag plus row-major nested lists.  The leading
axis of a 3D array is the stack index. -/
inductive Arr where
  | d2 (dtype : Dtype) (data : List (List Val))
  | d3 (dtype : Dtype) (layers : List (List (List Val)))
deriving DecidableEq

/-- Errors raised by the subsystem: `ValueError(f"Invalid edge strategy: {how}")`
from `_make_dims_multiples` (utils.py line 421). -/
inductive Err where
  | invalidEdgeStrategy (how : String)
deriving DecidableEq

instance : DecidableEq (Except Err Arr) :=
  fun x y =>
    match x, y with
    | .error a, .error b =>
      if h : a = b then .isTrue (by rw [h]) else .isFalse (by simp [h])
    | .ok a, .ok b =>
      if h : a = b then .isTrue (by rw [h]) else .isFalse (by simp [h])
    | .error _, .ok _ => .isFalse (by simp)
    | .ok _, .error _ => .isFalse (by simp)

/-- A 2D data block has `R` rows, each of length `C`. -/
def HasShape (data : List (List Val)) (R C : Nat) : Prop :=
  data.length = R ∧ ∀ row ∈ data, row.length = C

instance (data : List (List Val)) (R C : Nat) : Decidable (HasShape data R C) := by
  unfold HasShape; infer_instance

/-- `arr` has trailing two dimensions `(R, C)` and dtype `dtype`; for a 3D
array every layer has that 2D shape. -/
def Arr.HasShape2 (arr : Arr) (dtype : Dtype) (R C : Nat) : Prop :=
  match arr with
  | .d2 d data => d = dtype ∧ HasShape data R C
  | .d3 d layers => d = dtype ∧ ∀ l ∈ layers, HasShape l R C

instance (arr : Arr) (dtype : Dtype) (R C : Nat) :
    Decidable (arr.HasShape2 dtype R C) := by
  unfold Arr.HasShape2; cases arr <;> infer_instance

/-- Model of `_make_dims_multiples(arr, row_looks, col_looks, how)`
(utils.py lines 397-421).  `rows, cols = arr.shape`; under `"cutoff"` the
trailing `rows % row_looks` rows and `cols % col_looks` columns are sliced
off (each slice guarded by a non-zero test, as in the source); under `"pad"`
the array is extended on the trailing edges with `False` for boolean dtype
and NaN otherwise; any other string raises `ValueError`. -/
def make_dims_multiples (dtype : Dtype) (data : List (List Val))
    (row_looks col_looks : Nat) (how : String) : Except Err (List (List Val)) :=
  let rows := data.length
  let cols := (data.headD []).length
  let row_cutoff := rows % row_looks
  let col_cutoff := cols % col_looks
  if how = "cutoff" then
    let d1 := if row_cutoff ≠ 0 then data.take (rows - row_cutoff) else data
    let d2 := if col_cutoff ≠ 0 then d1.map (fun row => row.take (cols - col_cutoff)) else d1
    .ok d2
  else if how = "pad" then
    let pad_rows := (row_looks - row_cutoff) % row_looks
    let pad_cols := (col_looks - col_cutoff) % col_looks
    let pad_val := if dtype = Dtype.bool then Val.b false else Val.nan
    if pad_rows > 0 ∨ pad_cols > 0 then
      .ok ((data.map (fun row => row ++ List.replicate pad_cols pad_val)) ++
           List.replicate pad_rows (List.replicate (cols + pad_cols) pad_val))
    else .ok data
  else .error (.invalidEdgeStrategy how)

/-- Model of `func(xp.reshape(arr, (new_rows, row_looks, new_cols, col_looks)),
axis=(3, 1))` (utils.py lines 392-394) applied to the row-major flattening
`flat` of the 2D array: element `(i, j)` of the result applies the reduction
`f` to the block of flat elements at linear (row-major) indices
`((i*row_looks + di) * new_cols + j) * col_looks + dj` for `di < row_looks`,
`dj < col_looks`. -/
def reshape_reduce (f : List Val → Val) (row_looks col_looks new_rows new_cols : Nat)
    (flat : List Val) : List (List Val) :=
  (List.range new_rows).map fun i =>
    (List.range new_cols).map fun j =>
      f ((List.range row_looks).flatMap fun di =>
         (List.range col_looks).map fun dj =>
           flat.getD (((i * row_looks + di) * new_cols + j) * col_looks + dj) Val.nan)

/-- The 2D body of `take_looks` after the fast-path and ndim checks
(utils.py lines 382-394): reconcile dimensions, then reshape to 4D and
reduce the two looks axes with `f`. -/
def take_looks2d (dtype : Dtype) (data : List (List Val)) (row_looks col_looks : Nat)
    (f : List Val → Val) (edge_strategy : String) : Except Err (List (List Val)) :=
  match make_dims_multiples dtype data row_looks col_looks edge_strategy with
  | .error e => .error e
  | .ok arr =>
    let rows := arr.length
    let cols := (arr.headD []).length
    let new_rows := rows / row_looks
    let new_cols := cols / col_looks
    .ok (reshape_reduce f row_looks col_looks new_rows new_cols arr.flatten)

/-- Model of `take_looks(arr, row_looks, col_looks, func_type, edge_strategy)`
(utils.py lines 347-394).  `f` models the reduction function
`getattr(xp, func_type)`, receiving each block's elements row-major.
Note: line 380 of the source recurses on the layers of a 3D array with
`take_looks(a, row_looks, col_looks, func_type)`, omitting `edge_strategy`,
so every 2D layer of a 3D input is processed with the default `"cutoff"`
(and an invalid strategy string is never validated on that path). -/
def take_looks (arr : Arr) (row_looks col_looks : Nat) (f : List Val → Val)
    (edge_strategy : String) : Except Err Arr :=
  if row_looks = 1 ∧ col_looks = 1 then .ok arr
  else match arr with
  | .d3 dtype layers =>
      match layers.mapM (fun a => take_looks2d dtype a row_looks col_looks f "cutoff") with
      | .error e => .error e
      | .ok rs => .ok (.d3 dtype rs)
  | .d2 dtype data =>
      match take_looks2d dtype data row_looks col_looks f edge_strategy with
      | .error e => .error e
      | .ok rs => .ok (.d2 dtype rs)

/-- Number of evaluations of `get_array_module` (the backend-selector call of
the Backend Selector) during a call to `take_looks`: line 374 of the source
runs `xp = get_array_module(arr)` before the `row_looks == 1 and
col_looks == 1` fast-path check, so even the identity path performs one
backend resolution; on the 3D path each of the per-layer recursive calls
(with looks not equal to `(1, 1)` and a 2D argument) performs exactly one
more. -/
def take_looksDispatches (arr : Arr) (row_looks col_looks : Nat) : Nat :=
  if row_looks = 1 ∧ col_looks = 1 then 1
  else match arr with
  | .d3 _ layers => 1 + layers.length
  | .d2 _ _ => 1

/-- Model of `np.nansum` restricted to reducing a block given as the list of
its elements: the sum of the non-NaN entries (booleans count as 0/1, as in
numpy); an all-NaN block sums to 0. -/
def nansum (l : List Val) : Val :=
  Val.f (l.foldl (fun acc v => match v with
    | .f q => acc + q
    | .b true => acc + 1
    | .b false => acc
    | .nan => acc) 0)

/-- `xp.repeat(·, n, axis=0)` on the outermost list level: each entry is
repeated `n` times consecutively. -/
def repeatAxis0 {α : Type} (n : Nat) : List α → List α
  | [] => []
  | a :: l => List.replicate n a ++ repeatAxis0 n l

/-- `xp.zeros((rows, cols), dtype=dtype)`. -/
def zeros2 (dtype : Dtype) (rows cols : Nat) : List (List Val) :=
  List.replicate rows (List.replicate cols dtype.zero)

/-- The slice assignment `arr_out[:out_r, :out_c] = arr_up[:out_r, :out_c]`
on one 2D layer, producing the updated buffer: row `i < out_r` takes its
first `out_c` entries from `up` and keeps the rest of the `base` row; rows
`i ≥ out_r` are kept from `base`. -/
def setTopLeft (base up : List (List Val)) (out_r out_c : Nat) : List (List Val) :=
  (List.range base.length).map fun i =>
    if i < out_r then ((up.getD i []).take out_c) ++ ((base.getD i []).drop out_c)
    else base.getD i []

/-- Model of `upsample_nearest(arr, output_shape, looks)` (utils.py lines
424-471).  `output_shape` is the trailing `(rows, cols)` pair the source
reads via `output_shape[-2:]`.  If the trailing dimensions already match,
the input is returned; otherwise looks are taken from `looks` or inferred by
integer division, the array is block-repeated along the trailing two axes,
and the overlap with a zero-initialised buffer of the output shape (stack
count preserved for 3D) is copied top-left-aligned. -/
def upsample_nearest (arr : Arr) (output_shape : Nat × Nat)
    (looks : Option (Nat × Nat)) : Arr :=
  match arr with
  | .d2 dtype data =>
    let in_rows := data.length
    let in_cols := (data.headD []).length
    let out_rows := output_shape.1
    let out_cols := output_shape.2
    if (in_rows, in_cols) = (out_rows, out_cols) then arr
    else
      let row_looks := match looks with | none => out_rows / in_rows | some p => p.1
      let col_looks := match looks with | none => out_cols / in_cols | some p => p.2
      let arr_up := (repeatAxis0 row_looks data).map (repeatAxis0 col_looks)
      let out_r := min out_rows arr_up.length
      let out_c := min out_cols ((arr_up.headD []).length)
      .d2 dtype (setTopLeft (zeros2 dtype out_rows out_cols) arr_up out_r out_c)
  | .d3 dtype layers =>
    let in_rows := (layers.headD []).length
    let in_cols := ((layers.headD []).headD []).length
    let out_rows := output_shape.1
    let out_cols := output_shape.2
    if (in_rows, in_cols) = (out_rows, out_cols) then arr
    else
      let row_looks := match looks with | none => out_rows / in_rows | some p => p.1
      let col_looks := match looks with | none => out_cols / in_cols | some p => p.2
      let arr_up := layers.map fun a => (repeatAxis0 row_looks a).map (repeatAxis0 col_looks)
      let out_r := min out_rows ((arr_up.headD []).length)
      let out_c := min out_cols (((arr_up.headD []).headD []).length)
      .d3 dtype (arr_up.map fun u => setTopLeft (zeros2 dtype out_rows out_cols) u out_r out_c)

/-- Rebuild an array by applying `g` to each 2D layer (the single layer of a
2D array, every stacked layer of a 3D one), preserving dtype and stack
count. -/
def Arr.mapLayers (arr : Arr) (g : List (List Val) → List (List Val)) : Arr :=
  match arr with
  | .d2 dtype data => .d2 dtype (g data)
  | .d3 dtype layers => .d3 dtype (layers.map g)

/-- Spec-side description of the non-identity result of `upsample_nearest` on
one 2D layer of shape `(R, C)`: a buffer of exactly `(out_rows, out_cols)`
whose top-left overlap with the block-repeated array (the minimum of the
repeated shape `(R * rl, C * cl)` and the output shape along each axis)
holds the repeated values, and whose remaining cells stay at the zero fill
value. -/
def upsampleSpec (dtype : Dtype) (data : List (List Val))
    (R C out_rows out_cols rl cl : Nat) : List (List Val) :=
  (List.range out_rows).map fun i =>
    (List.range out_cols).map fun j =>
      if i < min out_rows (R * rl) ∧ j < min out_cols (C * cl) then
        (data.getD (i / rl) []).getD (j / cl) dtype.zero
      else dtype.zero

/-- The trailing two dimensions `arr.shape[-2:]` of an array. -/
def Arr.trailingShape : Arr → Nat × Nat
  | .d2 _ data => (data.length, (data.headD []).length)
  | .d3 _ layers => ((layers.headD []).length, ((layers.headD []).headD []).length)

/-- `xp.repeat(xp.repeat(arr, rl, axis=-2), cl, axis=-1)` (utils.py line 462). -/
def Arr.repeatTrailing (arr : Arr) (rl cl : Nat) : Arr :=
  match arr with
  | .d2 dtype data => .d2 dtype ((repeatAxis0 rl data).map (repeatAxis0 cl))
  | .d3 dtype layers => .d3 dtype (layers.map fun a => (repeatAxis0 rl a).map (repeatAxis0 cl))

/-- The slice assignment `arr_out[..., :out_r, :out_c] = arr_up[..., :out_r, :out_c]`
applied to whole arrays (per 2D layer); mismatched ranks cannot arise in
`upsample_nearest`, which builds `base` with the rank of the input. -/
def overlayArr (base up : Arr) (out_r out_c : Nat) : Arr :=
  match base, up with
  | .d2 dtype b, .d2 _ u => .d2 dtype (setTopLeft b u out_r out_c)
  | .d3 dtype bs, .d3 _ us => .d3 dtype ((bs.zip us).map fun p => setTopLeft p.1 p.2 out_r out_c)
  | b, _ => b

/-- A heap of array objects: references are allocation-ordered naturals.
Used to track which array object each operation returns and which buffers
are written in place. -/
structure Store where
  next : Nat
  mem : Nat → Arr

/-- Allocate a fresh array object holding `v`. -/
def Store.alloc (σ : Store) (v : Arr) : Nat × Store :=
  (σ.next, { next := σ.next + 1, mem := fun r => if r = σ.next then v else σ.mem r })

/-- Overwrite the buffer of an existing array object in place. -/
def Store.write (σ : Store) (r : Nat) (v : Arr) : Store :=
  { next := σ.next, mem := fun q => if q = r then v else σ.mem q }

/-- Object-level model of `take_looks`: the `(1, 1)` fast path returns the
caller's array object itself; every other path reads the input and
allocates a fresh object for the result (the source's temporaries — slices,
padded copies, reshaped views, per-layer results — are local and never
written through, and the reduction allocates the returned buffer).  An
invalid edge strategy raises, leaving the store untouched. -/
def take_looksRef (σ : Store) (r : Nat) (row_looks col_looks : Nat)
    (f : List Val → Val) (edge_strategy : String) : Except Err (Nat × Store) :=
  if row_looks = 1 ∧ col_looks = 1 then .ok (r, σ)
  else match take_looks (σ.mem r) row_looks col_looks f edge_strategy with
    | .error e => .error e
    | .ok v => .ok (σ.alloc v)

/-- Object-level model of `upsample_nearest` (utils.py 424-471): the identity
fast path returns the caller's object; otherwise `xp.repeat` allocates
`arr_up`, `xp.zeros` allocates `arr_out`, and the single in-place write of
the subsystem (line 470) updates the freshly allocated `arr_out`. -/
def upsample_nearestRef (σ : Store) (r : Nat) (output_shape : Nat × Nat)
    (looks : Option (Nat × Nat)) : Nat × Store :=
  let arr := σ.mem r
  if arr.trailingShape = output_shape then (r, σ)
  else
    let row_looks := match looks with
      | none => output_shape.1 / arr.trailingShape.1 | some p => p.1
    let col_looks := match looks with
      | none => output_shape.2 / arr.trailingShape.2 | some p => p.2
    let a1 := σ.alloc (arr.repeatTrailing row_looks col_looks)
    let rup := a1.1
    let σ1 := a1.2
    let out_r := min output_shape.1 (σ1.mem rup).trailingShape.1
    let out_c := min output_shape.2 (σ1.mem rup).trailingShape.2
    let zv : Arr := match arr with
      | .d2 dtype _ => .d2 dtype (zeros2 dtype output_shape.1 output_shape.2)
      | .d3 dtype layers =>
          .d3 dtype (List.replicate layers.length (zeros2 dtype output_shape.1 output_shape.2))
    let a2 := σ1.alloc zv
    let rout := a2.1
    let σ2 := a2.2
    let σ3 := σ2.write rout (overlayArr (σ2.mem rout) (σ2.mem rup) out_r out_c)
    (rout, σ3)

/-- Outcome of `import cupy; from numba import cuda` (utils.py 305-311). -/
inductive ImportResult where
  | ok
  | importError
deriving DecidableEq

/-- Outcome of `cuda.runtime.get_version()` (utils.py 313-318): a runtime
version, or an `OSError`. -/
inductive VersionResult where
  | ok (version : Nat × Nat)
  | osError (msg : String)
deriving DecidableEq

/-- Outcome of `len(cuda.gpus)` (utils.py 319-323): a device count, or a
`cuda.CudaSupportError` (raised on driver/support problems). -/
inductive GpusResult where
  | ok (n : Nat)
  | cudaSupportError (msg : String)
deriving DecidableEq

/-- The accelerator environment interrogated by the capability probe. -/
structure CudaEnv where
  importCupy : ImportResult
  runtimeVersion : VersionResult
  gpus : GpusResult
deriving DecidableEq

/-- Model of `gpu_is_available()` (utils.py 303-327): the import failure, the
runtime-version `OSError`, and the `CudaSupportError` of device enumeration
are each caught and converted to `False` (with a debug log only); fewer
than one enumerated device also yields `False`.  The function is total — no
probe failure propagates. -/
def gpu_is_available (env : CudaEnv) : Bool :=
  match env.importCupy with
  | .importError => false
  | .ok =>
    match env.runtimeVersion with
    | .osError _ => false
    | .ok _ =>
      match env.gpus with
      | .cudaSupportError _ => false
      | .ok n => if n < 1 then false else true

/-! ### Helper lemmas about list operations -/

lemma length_repeatAxis0 {α : Type} (n : Nat) (l : List α) :
    (repeatAxis0 n l).length = n * l.length := by
  induction l with
  | nil => simp [repeatAxis0]
  | cons a l ih => simp only [repeatAxis0, List.length_append, List.length_replicate,
      List.length_cons, ih, Nat.mul_succ]; omega

lemma getD_replicate_eq {α : Type} (a d : α) (n j : Nat) :
    (List.replicate n a).getD j d = if j < n then a else d := by
  by_cases h : j < n
  · rw [List.getD_eq_getElem _ _ (by simpa using h), List.getElem_replicate, if_pos h]
  · rw [List.getD_eq_default _ _ (by simpa using Nat.le_of_not_lt h), if_neg h]

lemma getD_repeatAxis0 {α : Type} (n : Nat) (l : List α) (j : Nat) (d : α) :
    (repeatAxis0 n l).getD j d = if j < n * l.length then l.getD (j / n) d else d := by
  induction l generalizing j with
  | nil => simp [repeatAxis0]
  | cons a l ih =>
    simp only [repeatAxis0]
    by_cases hj : j < n
    · rw [List.getD_append _ _ _ _ (by simpa using hj), getD_replicate_eq, if_pos hj,
        if_pos (by simp only [List.length_cons, Nat.mul_succ]; omega),
        Nat.div_eq_of_lt hj, List.getD_cons_zero]
    · have h1 : (List.replicate n a).length ≤ j := by simpa using Nat.le_of_not_lt hj
      rw [List.getD_append_right _ _ _ _ h1, List.length_replicate, ih]
      rcases Nat.eq_zero_or_pos n with hn | hn
      · subst hn; simp
      · have hdiv : j / n = (j - n) / n + 1 :=
          Nat.div_eq_sub_div hn (Nat.le_of_not_lt hj)
        by_cases h2 : j - n < n * l.length
        · rw [if_pos h2, if_pos (by simp only [List.length_cons, Nat.mul_succ]; omega),
            hdiv, List.getD_cons_succ]
        · rw [if_neg h2, if_neg (by simp only [List.length_cons, Nat.mul_succ]; omega)]

lemma getD_map_range {α : Type} (f : Nat → α) (n i : Nat) (d : α) :
    ((List.range n).map f).getD i d = if i < n then f i else d := by
  by_cases h : i < n
  · rw [List.getD_eq_getElem _ _ (by simpa using h), List.getElem_map,
      List.getElem_range, if_pos h]
  · rw [List.getD_eq_default _ _ (by simpa using Nat.le_of_not_lt h), if_neg h]

lemma range_map_getD {α : Type} (l : List α) (d : α) :
    (List.range l.length).map (fun i => l.getD i d) = l := by
  apply List.ext_getElem (by simp)
  intro i h1 h2
  simp only [List.getElem_map, List.getElem_range]
  exact List.getD_eq_getElem l d h2

lemma getD_default_irrel {α : Type} (l : List α) (i : Nat) (d d' : α)
    (h : i < l.length) : l.getD i d = l.getD i d' := by
  rw [List.getD_eq_getElem _ _ h, List.getD_eq_getElem _ _ h]

lemma getD_mem_of_lt {α : Type} (l : List α) (i : Nat) (d : α) (h : i < l.length) :
    l.getD i d ∈ l := by
  rw [List.getD_eq_getElem _ _ h]
  exact List.getElem_mem h

lemma getD_map_lt {α β : Type} (f : α → β) (l : List α) (i : Nat) (d : β) (d' : α)
    (h : i < l.length) : (l.map f).getD i d = f (l.getD i d') := by
  rw [List.getD_eq_getElem _ _ (by simpa using h), List.getElem_map,
    List.getD_eq_getElem _ _ h]

lemma getD_take_lt {α : Type} (l : List α) (k j : Nat) (d : α)
    (h : j < (l.take k).length) : (l.take k).getD j d = l.getD j d := by
  have hl : j < l.length := by simp at h; omega
  rw [List.getD_eq_getElem _ _ h, List.getElem_take, List.getD_eq_getElem _ _ hl]

lemma getD_drop_lt {α : Type} (l : List α) (k j : Nat) (d : α)
    (h : j < (l.drop k).length) : (l.drop k).getD j d = l.getD (k + j) d := by
  have hl : k + j < l.length := by simp at h; omega
  rw [List.getD_eq_getElem _ _ h, List.getElem_drop, List.getD_eq_getElem _ _ hl]

lemma eq_of_getD {α : Type} (l₁ l₂ : List α) (d : α) (hl : l₁.length = l₂.length)
    (h : ∀ i, i < l₁.length → l₁.getD i d = l₂.getD i d) : l₁ = l₂ := by
  apply List.ext_getElem hl
  intro i h1 h2
  have hi := h i h1
  rwa [List.getD_eq_getElem _ _ h1, List.getD_eq_getElem _ _ h2] at hi

lemma zeros2_length (dtype : Dtype) (R C : Nat) : (zeros2 dtype R C).length = R := by
  simp [zeros2]

lemma zeros2_getD (dtype : Dtype) (R C i : Nat) (h : i < R) :
    (zeros2 dtype R C).getD i [] = List.replicate C dtype.zero := by
  rw [zeros2, getD_replicate_eq, if_pos h]

lemma setTopLeft_length (base up : List (List Val)) (out_r out_c : Nat) :
    (setTopLeft base up out_r out_c).length = base.length := by
  simp [setTopLeft]

lemma setTopLeft_zero_rows (base up : List (List Val)) (out_c : Nat) :
    setTopLeft base up 0 out_c = base := by
  simp only [setTopLeft, Nat.not_lt_zero, if_false]
  exact range_map_getD base []

/-- One 2D layer of the non-identity path of `upsample_nearest` (block repeat,
then copy the top-left overlap onto a zero buffer) equals the spec-side
description `upsampleSpec`.  `out_c` is what the source computes from the
first repeated row when the repeated array is nonempty; when it is empty
(`rl * R = 0`) no row is copied and `out_c` is irrelevant. -/
lemma upsample_layer_eq_spec (dtype : Dtype) (data : List (List Val))
    (R C orows ocols rl cl out_r out_c : Nat)
    (hsh : HasShape data R C)
    (hr : out_r = min orows (rl * R))
    (hc : out_c = min ocols (cl * C) ∨ rl * R = 0) :
    setTopLeft (zeros2 dtype orows ocols) ((repeatAxis0 rl data).map (repeatAxis0 cl)) out_r out_c
      = upsampleSpec dtype data R C orows ocols rl cl := by
  obtain ⟨hR, hC⟩ := hsh
  have hupl : ((repeatAxis0 rl data).map (repeatAxis0 cl)).length = rl * R := by
    simp [length_repeatAxis0, hR]
  apply eq_of_getD _ _ [] (by simp [setTopLeft_length, zeros2_length, upsampleSpec])
  intro i hi
  have hio : i < orows := by simpa [setTopLeft_length, zeros2_length] using hi
  have hL : (setTopLeft (zeros2 dtype orows ocols)
      ((repeatAxis0 rl data).map (repeatAxis0 cl)) out_r out_c).getD i []
      = if i < out_r then
          ((((repeatAxis0 rl data).map (repeatAxis0 cl)).getD i []).take out_c) ++
          (((zeros2 dtype orows ocols).getD i []).drop out_c)
        else (zeros2 dtype orows ocols).getD i [] := by
    rw [setTopLeft, zeros2_length, getD_map_range, if_pos hio]
  have hRHS : (upsampleSpec dtype data R C orows ocols rl cl).getD i []
      = (List.range ocols).map fun j =>
          if i < min orows (R * rl) ∧ j < min ocols (C * cl) then
            (data.getD (i / rl) []).getD (j / cl) dtype.zero
          else dtype.zero := by
    rw [upsampleSpec, getD_map_range, if_pos hio]
  rw [hL, hRHS]
  by_cases hcase : i < out_r
  · -- inside the copied overlap rows
    rw [if_pos hcase]
    have hirl : i < rl * R := by omega
    have hrl0 : 0 < rl := by
      rcases Nat.eq_zero_or_pos rl with h0 | h0
      · subst h0; simp at hirl
      · exact h0
    have hout_c : out_c = min ocols (cl * C) := by
      rcases hc with h | h
      · exact h
      · omega
    have hicond : i < min orows (R * rl) := by rw [Nat.mul_comm R rl]; omega
    have hup : (((repeatAxis0 rl data).map (repeatAxis0 cl)).getD i [])
        = repeatAxis0 cl (data.getD (i / rl) []) := by
      rw [getD_map_lt _ _ _ _ [] (by rw [length_repeatAxis0, hR]; omega),
        getD_repeatAxis0, hR, if_pos hirl]
    have hdivR : i / rl < R := by
      rw [Nat.div_lt_iff_lt_mul hrl0, Nat.mul_comm R rl]
      omega
    have hdrl : (data.getD (i / rl) []).length = C :=
      hC _ (getD_mem_of_lt _ _ _ (by omega))
    rw [hup, zeros2_getD _ _ _ _ hio]
    have hlenrep : (repeatAxis0 cl (data.getD (i / rl) [])).length = cl * C := by
      rw [length_repeatAxis0, hdrl]
    have htake : ((repeatAxis0 cl (data.getD (i / rl) [])).take out_c).length = out_c := by
      simp only [List.length_take, hlenrep]
      omega
    apply eq_of_getD _ _ dtype.zero
    · simp only [List.length_append, htake, List.length_drop, List.length_replicate,
        List.length_map, List.length_range]
      omega
    intro j hj
    have hjo : j < ocols := by
      simp only [List.length_append, htake, List.length_drop, List.length_replicate] at hj
      omega
    rw [getD_map_range, if_pos hjo]
    by_cases hjc : j < out_c
    · rw [List.getD_append _ _ _ _ (by omega), getD_take_lt _ _ _ _ (by omega),
        getD_repeatAxis0, hdrl, if_pos (by omega),
        if_pos ⟨hicond, by rw [Nat.mul_comm C cl]; omega⟩]
    · rw [List.getD_append_right _ _ _ _ (by omega), htake,
        getD_drop_lt _ _ _ _ (by simp only [List.length_drop, List.length_replicate]; omega),
        getD_replicate_eq, if_pos (by omega),
        if_neg (by rw [Nat.mul_comm C cl]; omega)]
  · -- rows below the overlap stay at the zero fill
    rw [if_neg hcase, zeros2_getD _ _ _ _ hio]
    have hcond : ¬ i < min orows (R * rl) := by rw [Nat.mul_comm R rl]; omega
    apply eq_of_getD _ _ dtype.zero (by simp)
    intro j hj
    have hjo : j < ocols := by simpa using hj
    rw [getD_map_range, if_pos hjo, getD_replicate_eq, if_pos hjo,
      if_neg (by tauto)]

lemma mem_repeatAxis0 {α : Type} {x : α} (n : Nat) (l : List α)
    (h : x ∈ repeatAxis0 n l) : x ∈ l := by
  induction l with
  | nil => simpa [repeatAxis0] using h
  | cons a t ih =>
    simp only [repeatAxis0, List.mem_append, List.mem_replicate] at h
    rcases h with ⟨_, rfl⟩ | h
    · exact List.mem_cons_self _ _
    · exact List.mem_cons_of_mem _ (ih h)

lemma up_length (rl cl : Nat) (data : List (List Val)) :
    ((repeatAxis0 rl data).map (repeatAxis0 cl)).length = rl * data.length := by
  simp [length_repeatAxis0]

lemma up_headD_length (rl cl : Nat) (data : List (List Val)) (C : Nat)
    (hC : ∀ row ∈ data, row.length = C)
    (h : ((repeatAxis0 rl data).map (repeatAxis0 cl)).length ≠ 0) :
    (((repeatAxis0 rl data).map (repeatAxis0 cl)).headD []).length = cl * C := by
  cases hu : (repeatAxis0 rl data).map (repeatAxis0 cl) with
  | nil => rw [hu] at h; simp at h
  | cons u0 rest =>
    have hmem : u0 ∈ (repeatAxis0 rl data).map (repeatAxis0 cl) := by
      rw [hu]; exact List.mem_cons_self _ _
    obtain ⟨r0, hr0mem, rfl⟩ := List.mem_map.mp hmem
    simp [length_repeatAxis0, hC r0 (mem_repeatAxis0 _ _ hr0mem)]

lemma upsampleSpec_eq_zeros2 (dtype : Dtype) (data : List (List Val))
    (R C orows ocols rl cl : Nat) (h : R * rl = 0) :
    upsampleSpec dtype data R C orows ocols rl cl = zeros2 dtype orows ocols := by
  apply eq_of_getD _ _ [] (by simp [zeros2, upsampleSpec])
  intro i hi
  have hio : i < orows := by simpa [upsampleSpec] using hi
  rw [zeros2_getD _ _ _ _ hio, upsampleSpec, getD_map_range, if_pos hio]
  simp [h, List.map_const']

lemma zeros2_eq_upsampleSpec_R0 (dtype : Dtype) (C orows ocols rl cl : Nat) :
    zeros2 dtype orows ocols = upsampleSpec dtype [] 0 C orows ocols rl cl :=
  (upsampleSpec_eq_zeros2 dtype [] 0 C orows ocols rl cl (by simp)).symm

/-- Main auxiliary result: on any trailing-shape mismatch `upsample_nearest`
equals the per-layer `upsampleSpec` buffer, for the looks the source uses
(supplied, or inferred by integer division). -/
lemma upsample_nearest_spec_aux (dtype : Dtype) (arr : Arr)
    (R C out_rows out_cols rl cl : Nat) (looks : Option (Nat × Nat))
    (hsh : arr.HasShape2 dtype R C)
    (hne : (R, C) ≠ (out_rows, out_cols))
    (hlk : looks = some (rl, cl) ∨
           (looks = none ∧ rl = out_rows / R ∧ cl = out_cols / C)) :
    upsample_nearest arr (out_rows, out_cols) looks
      = arr.mapLayers (fun l => upsampleSpec dtype l R C out_rows out_cols rl cl) := by
  cases arr with
  | d2 dt data =>
    obtain ⟨rfl, hR, hC⟩ := hsh
    by_cases hR0 : R = 0
    · subst hR0
      have hdata : data = [] := List.eq_nil_of_length_eq_zero hR
      subst hdata
      by_cases hout : out_rows = 0 ∧ out_cols = 0
      · obtain ⟨rfl, rfl⟩ := hout
        simp [upsample_nearest, Arr.mapLayers, upsampleSpec]
      · have hcond : ¬ ((0, 0) : Nat × Nat) = (out_rows, out_cols) := by
          intro h
          exact hout ⟨congrArg Prod.fst h |>.symm, congrArg Prod.snd h |>.symm⟩
        rcases hlk with rfl | ⟨rfl, hrl, hcl⟩ <;>
        · simp only [upsample_nearest, Arr.mapLayers, List.headD_nil, List.length_nil]
          rw [if_neg hcond]
          simp only [repeatAxis0, List.map_nil, List.length_nil, Nat.min_zero,
            setTopLeft_zero_rows]
          rw [zeros2_eq_upsampleSpec_R0 dt C out_rows out_cols rl cl]
    · cases data with
      | nil => simp at hR; omega
      | cons row0 rest =>
        have hrow0 : row0.length = C := hC _ (List.mem_cons_self _ _)
        have hup : ∀ a : List (List Val),
            ((repeatAxis0 rl a).map (repeatAxis0 cl)).length = rl * a.length :=
          fun a => up_length rl cl a
        have hcond : ¬ (((row0 :: rest).length, row0.length) = (out_rows, out_cols)) := by
          rw [hR, hrow0]; exact hne
        have hr' : min out_rows (((repeatAxis0 rl (row0 :: rest)).map (repeatAxis0 cl)).length)
            = min out_rows (rl * R) := by rw [hup, hR]
        have hc' : min out_cols ((((repeatAxis0 rl (row0 :: rest)).map (repeatAxis0 cl)).headD []).length)
            = min out_cols (cl * C) ∨ rl * R = 0 := by
          by_cases hz : rl * R = 0
          · exact Or.inr hz
          · refine Or.inl ?_
            rw [up_headD_length rl cl _ C hC (by rw [hup, hR]; exact hz)]
        rcases hlk with rfl | ⟨rfl, hrl, hcl⟩
        · simp only [upsample_nearest, Arr.mapLayers, List.headD_cons]
          rw [if_neg hcond]
          exact congrArg (Arr.d2 dt)
            (upsample_layer_eq_spec dt (row0 :: rest) R C out_rows out_cols rl cl _ _
              ⟨hR, hC⟩ hr' hc')
        · subst hrl hcl
          simp only [upsample_nearest, Arr.mapLayers, List.headD_cons, hR, hrow0]
          rw [if_neg hne]
          exact congrArg (Arr.d2 dt)
            (upsample_layer_eq_spec dt (row0 :: rest) R C out_rows out_cols _ _ _ _
              ⟨hR, hC⟩ hr' hc')
  | d3 dt layers =>
    obtain ⟨rfl, hlayers⟩ := hsh
    cases layers with
    | nil =>
      by_cases hout : out_rows = 0 ∧ out_cols = 0
      · obtain ⟨rfl, rfl⟩ := hout
        simp [upsample_nearest, Arr.mapLayers]
      · have hcond : ¬ ((0, 0) : Nat × Nat) = (out_rows, out_cols) := by
          intro h
          exact hout ⟨congrArg Prod.fst h |>.symm, congrArg Prod.snd h |>.symm⟩
        rcases hlk with rfl | ⟨rfl, hrl, hcl⟩ <;>
        · simp only [upsample_nearest, Arr.mapLayers, List.headD_nil, List.length_nil,
            List.map_nil]
          rw [if_neg hcond]
    | cons l0 rest =>
      have hl0 := hlayers l0 (List.mem_cons_self _ _)
      obtain ⟨hl0R, hl0C⟩ := hl0
      by_cases hR0 : R = 0
      · subst hR0
        have hl0nil : l0 = [] := List.eq_nil_of_length_eq_zero hl0R
        have hall : ∀ l ∈ l0 :: rest, l = ([] : List (List Val)) := by
          intro l hl
          exact List.eq_nil_of_length_eq_zero (hlayers l hl).1
        by_cases hout : out_rows = 0 ∧ out_cols = 0
        · obtain ⟨rfl, rfl⟩ := hout
          subst hl0nil
          simp only [upsample_nearest, Arr.mapLayers, List.headD_cons, List.headD_nil,
            List.length_nil]
          rw [if_pos trivial]
          rw [Arr.d3.injEq]
          refine ⟨rfl, ?_⟩
          refine ((List.map_congr_left fun l hl => ?_).trans (List.map_id _)).symm
          rw [hall l hl]
          simp [upsampleSpec]
        · have hcond : ¬ ((([] : List (List Val)).length,
              (([] : List (List Val)).headD []).length) = (out_rows, out_cols)) := by
            simp only [List.length_nil, List.headD_nil]
            intro h
            exact hout ⟨congrArg Prod.fst h |>.symm, congrArg Prod.snd h |>.symm⟩
          rcases hlk with rfl | ⟨rfl, hrl, hcl⟩ <;>
          · subst hl0nil
            simp only [upsample_nearest, Arr.mapLayers, List.headD_cons]
            rw [if_neg hcond]
            rw [Arr.d3.injEq]
            refine ⟨rfl, ?_⟩
            rw [List.map_map]
            refine List.map_congr_left fun l hl => ?_
            rw [hall l hl]
            simp only [Function.comp_apply, repeatAxis0, List.map_nil, List.map_cons,
              List.headD_nil, List.headD_cons, List.length_nil, Nat.min_zero,
              setTopLeft_zero_rows]
            exact zeros2_eq_upsampleSpec_R0 dt C out_rows out_cols _ _
      · have hl0ne : l0 ≠ [] := by
          intro h
          rw [h] at hl0R
          simp at hl0R
          omega
        cases l0 with
        | nil => exact absurd rfl hl0ne
        | cons r0 l0rest =>
          have hr0 : r0.length = C := hl0C _ (List.mem_cons_self _ _)
          have hcond : ¬ (((r0 :: l0rest).length, r0.length) = (out_rows, out_cols)) := by
            rw [hl0R, hr0]; exact hne
          have hupfst : ((repeatAxis0 rl (r0 :: l0rest)).map (repeatAxis0 cl)).length
              = rl * R := by rw [up_length, hl0R]
          have hr' : min out_rows (((repeatAxis0 rl (r0 :: l0rest)).map (repeatAxis0 cl)).length)
              = min out_rows (rl * R) := by rw [hupfst]
          have hc' : min out_cols ((((repeatAxis0 rl (r0 :: l0rest)).map (repeatAxis0 cl)).headD []).length)
              = min out_cols (cl * C) ∨ rl * R = 0 := by
            by_cases hz : rl * R = 0
            · exact Or.inr hz
            · refine Or.inl ?_
              rw [up_headD_length rl cl _ C hl0C (by rw [hupfst]; exact hz)]
          rcases hlk with rfl | ⟨rfl, hrl, hcl⟩
          · simp only [upsample_nearest, Arr.mapLayers, List.headD_cons]
            rw [if_neg hcond]
            rw [Arr.d3.injEq]
            refine ⟨rfl, ?_⟩
            rw [List.map_map]
            refine List.map_congr_left fun l hl => ?_
            exact upsample_layer_eq_spec dt l R C out_rows out_cols rl cl _ _
              (hlayers l hl) hr' hc'
          · subst hrl hcl
            simp only [upsample_nearest, Arr.mapLayers, List.headD_cons, hl0R, hr0]
            rw [if_neg hne]
            rw [Arr.d3.injEq]
            refine ⟨rfl, ?_⟩
            rw [List.map_map]
            refine List.map_congr_left fun l hl => ?_
            exact upsample_layer_eq_spec dt l R C out_rows out_cols _ _ _ _
              (hlayers l hl) hr' hc'

lemma mapLayers_congr (arr : Arr) (g g' : List (List Val) → List (List Val))
    (h : ∀ l, g l = g' l) : arr.mapLayers g = arr.mapLayers g' := by
  cases arr with
  | d2 dt data => exact congrArg (Arr.d2 dt) (h data)
  | d3 dt layers =>
    exact congrArg (Arr.d3 dt) (List.map_congr_left fun a _ => h a)

/-- C2: for every array whose trailing two dimensions `(R, C)` differ from
`output_shape`'s trailing two dimensions, `upsample_nearest` returns a
buffer of exactly the output shape (`upsampleSpec` is by construction an
`out_rows` by `out_cols` matrix; stack count and dtype are preserved by
`Arr.mapLayers`), zero-initialised, whose top-left-aligned region — the
minimum of the block-repeated shape and the output shape along each
trailing axis — holds the block-repeated values: a smaller repeated array
leaves the uncovered area zero, a larger one is silently cropped. -/
theorem upsample_nearest_mismatch_overlap (dtype : Dtype) (arr : Arr)
    (R C out_rows out_cols rl cl : Nat) (looks : Option (Nat × Nat))
    (hsh : arr.HasShape2 dtype R C)
    (hne : (R, C) ≠ (out_rows, out_cols))
    (hlk : looks = some (rl, cl) ∨
           (looks = none ∧ rl = out_rows / R ∧ cl = out_cols / C)) :
    upsample_nearest arr (out_rows, out_cols) looks
      = arr.mapLayers (fun l => upsampleSpec dtype l R C out_rows out_cols rl cl) :=
  upsample_nearest_spec_aux dtype arr R C out_rows out_cols rl cl looks hsh hne hlk

/-- Witness for C2: a `2 x 2` float array upsampled with looks `(2, 2)` to
output shape `(3, 3)` — the repeated `4 x 4` array is cropped. -/
theorem upsample_nearest_mismatch_overlap_witness :
    upsample_nearest (Arr.d2 Dtype.float [[Val.f 4, Val.f 5], [Val.f 6, Val.f 7]])
        (3, 3) (some (2, 2))
      = (Arr.d2 Dtype.float [[Val.f 4, Val.f 5], [Val.f 6, Val.f 7]]).mapLayers
          (fun l => upsampleSpec Dtype.float l 2 2 3 3 2 2) :=
  upsample_nearest_mismatch_overlap Dtype.float
    (Arr.d2 Dtype.float [[Val.f 4, Val.f 5], [Val.f 6, Val.f 7]]) 2 2 3 3 2 2
    (some (2, 2)) (by decide) (by decide) (Or.inl rfl)

/-- C7: for every array whose trailing two dimensions already equal
`output_shape`'s trailing two dimensions, `upsample_nearest` returns the
input array itself, for any value of the `looks` argument. -/
theorem upsample_nearest_identity (dtype : Dtype) (arr : Arr) (R C : Nat)
    (looks : Option (Nat × Nat)) (hsh : arr.HasShape2 dtype R C) :
    upsample_nearest arr (R, C) looks = arr := by
  cases arr with
  | d2 dt data =>
    obtain ⟨rfl, hR, hC⟩ := hsh
    cases data with
    | nil =>
      simp only [List.length_nil] at hR
      subst hR
      by_cases hC0 : C = 0
      · subst hC0
        simp [upsample_nearest]
      · simp only [upsample_nearest, List.headD_nil, List.length_nil]
        rw [if_neg (by intro h; exact hC0 (congrArg Prod.snd h).symm)]
        simp [setTopLeft, zeros2]
    | cons row0 rest =>
      have hrow0 : row0.length = C := hC _ (List.mem_cons_self _ _)
      simp only [upsample_nearest, List.headD_cons, hR, hrow0]
      rw [if_pos trivial]
  | d3 dt layers =>
    obtain ⟨rfl, hlayers⟩ := hsh
    cases layers with
    | nil =>
      by_cases h0 : R = 0 ∧ C = 0
      · obtain ⟨rfl, rfl⟩ := h0
        simp [upsample_nearest]
      · simp only [upsample_nearest, List.headD_nil, List.length_nil]
        rw [if_neg (by
          intro h
          exact h0 ⟨(congrArg Prod.fst h).symm, (congrArg Prod.snd h).symm⟩)]
        simp
    | cons l0 rest =>
      have hl0 := hlayers l0 (List.mem_cons_self _ _)
      obtain ⟨hl0R, hl0C⟩ := hl0
      by_cases hR0 : R = 0
      · subst hR0
        have hl0nil : l0 = [] := List.eq_nil_of_length_eq_zero hl0R
        subst hl0nil
        have hall : ∀ l ∈ ([] : List (List Val)) :: rest, l = ([] : List (List Val)) := by
          intro l hl
          exact List.eq_nil_of_length_eq_zero (hlayers l hl).1
        by_cases hC0 : C = 0
        · subst hC0
          simp only [upsample_nearest, List.headD_cons, List.headD_nil, List.length_nil]
          rw [if_pos trivial]
        · simp only [upsample_nearest, List.headD_cons, List.headD_nil, List.length_nil]
          rw [if_neg (by intro h; exact hC0 (congrArg Prod.snd h).symm)]
          rw [Arr.d3.injEq]
          refine ⟨rfl, ?_⟩
          rw [List.map_map]
          refine (List.map_congr_left ?_).trans (List.map_id _)
          intro l hl
          rw [hall l hl]
          simp [setTopLeft, zeros2]
      · cases l0 with
        | nil => simp only [List.length_nil] at hl0R; omega
        | cons r0 l0rest =>
          have hr0 : r0.length = C := hl0C _ (List.mem_cons_self _ _)
          simp only [upsample_nearest, List.headD_cons, hl0R, hr0]
          rw [if_pos trivial]

/-- Witness for C7: a `2 x 2` array with matching output shape is returned
unchanged even with a weird explicit `looks` value. -/
theorem upsample_nearest_identity_witness :
    upsample_nearest (Arr.d2 Dtype.float [[Val.f 1, Val.f 2], [Val.f 3, Val.f 4]])
        (2, 2) (some (7, 9))
      = Arr.d2 Dtype.float [[Val.f 1, Val.f 2], [Val.f 3, Val.f 4]] :=
  upsample_nearest_identity Dtype.float
    (Arr.d2 Dtype.float [[Val.f 1, Val.f 2], [Val.f 3, Val.f 4]]) 2 2 (some (7, 9))
    (by decide)

/-- C10: for every array whose trailing two dimensions are each strictly
larger than the output shape, `upsample_nearest` with `looks` omitted
infers look factor `0` on both axes (integer division), so block-repetition
yields an empty array and the result is the all-zero buffer of exactly the
output shape in the input's element type; no error is raised. -/
theorem upsample_nearest_shrink_zeros (dtype : Dtype) (arr : Arr)
    (R C out_rows out_cols : Nat) (hsh : arr.HasShape2 dtype R C)
    (hrow : out_rows < R) (hcol : out_cols < C) :
    upsample_nearest arr (out_rows, out_cols) none
      = arr.mapLayers (fun _ => zeros2 dtype out_rows out_cols) := by
  have hne : (R, C) ≠ (out_rows, out_cols) := by
    intro h
    have := congrArg Prod.fst h
    simp at this
    omega
  refine (upsample_nearest_spec_aux dtype arr R C out_rows out_cols
    (out_rows / R) (out_cols / C) none hsh hne (Or.inr ⟨rfl, rfl, rfl⟩)).trans ?_
  refine mapLayers_congr arr _ _ fun l => ?_
  rw [Nat.div_eq_of_lt hrow, Nat.div_eq_of_lt hcol]
  exact upsampleSpec_eq_zeros2 dtype l R C out_rows out_cols 0 0 (by simp)

/-- Witness for C10: upsampling a `3 x 3` array of ones to output shape
`(2, 2)` without explicit looks yields the `2 x 2` zero buffer. -/
theorem upsample_nearest_shrink_zeros_witness :
    upsample_nearest
        (Arr.d2 Dtype.float
          [[Val.f 1, Val.f 1, Val.f 1], [Val.f 1, Val.f 1, Val.f 1],
           [Val.f 1, Val.f 1, Val.f 1]]) (2, 2) none
      = (Arr.d2 Dtype.float
          [[Val.f 1, Val.f 1, Val.f 1], [Val.f 1, Val.f 1, Val.f 1],
           [Val.f 1, Val.f 1, Val.f 1]]).mapLayers
          (fun _ => zeros2 Dtype.float 2 2) :=
  upsample_nearest_shrink_zeros Dtype.float
    (Arr.d2 Dtype.float
      [[Val.f 1, Val.f 1, Val.f 1], [Val.f 1, Val.f 1, Val.f 1],
       [Val.f 1, Val.f 1, Val.f 1]]) 3 3 2 2 (by decide) (by decide) (by decide)

lemma sub_mod_div (R r : Nat) (hr : 0 < r) : (R - R % r) / r = R / r := by
  have h := Nat.div_add_mod R r
  have h2 : R - R % r = r * (R / r) := by omega
  rw [h2, Nat.mul_div_cancel_left _ hr]

lemma pad_total_div (R r : Nat) (hr : 0 < r) :
    (R + (r - R % r) % r) / r = (R + r - 1) / r := by
  have hmod := Nat.mod_lt R hr
  have hdm := Nat.div_add_mod R r
  rcases Nat.eq_zero_or_pos (R % r) with h0 | h0
  · have h1 : (r - R % r) % r = 0 := by rw [h0, Nat.sub_zero, Nat.mod_self]
    have h3 : R + r - 1 = r * (R / r) + (r - 1) := by omega
    rw [h1, Nat.add_zero, h3, Nat.mul_add_div hr,
      Nat.div_eq_of_lt (show r - 1 < r by omega), Nat.add_zero]
  · have h1 : (r - R % r) % r = r - R % r := Nat.mod_eq_of_lt (by omega)
    have h2 : R + (r - R % r) = r * (R / r + 1) := by
      have : r * (R / r + 1) = r * (R / r) + r := by ring
      omega
    have h3 : R + r - 1 = r * (R / r) + (R % r + r - 1) := by omega
    have h4 : (R % r + r - 1) / r = 1 := by
      have h5 : R % r + r - 1 = r * 1 + (R % r - 1) := by omega
      rw [h5, Nat.mul_add_div hr, Nat.div_eq_of_lt (by omega)]
    rw [h1, h2, Nat.mul_div_cancel_left _ hr, h3, Nat.mul_add_div hr, h4]

/-- The `"cutoff"` branch of `_make_dims_multiples` keeps `R - R % r` rows of
length `C - C % c` each. -/
lemma cutoff_shape (dtype : Dtype) (data : List (List Val)) (R C r c : Nat)
    (hsh : HasShape data R C) :
    ∃ d', make_dims_multiples dtype data r c "cutoff" = .ok d' ∧
      d'.length = R - R % r ∧ ∀ row ∈ d', row.length = C - C % c := by
  obtain ⟨hR, hC⟩ := hsh
  cases data with
  | nil =>
    simp only [List.length_nil] at hR
    subst hR
    refine ⟨[], ?_, by simp, by simp⟩
    simp [make_dims_multiples]
  | cons row0 rest =>
    have hrow0 : row0.length = C := hC _ (List.mem_cons_self _ _)
    by_cases hrm : R % r = 0 <;> by_cases hcm : C % c = 0
    · refine ⟨row0 :: rest, ?_, by rw [hR, hrm, Nat.sub_zero], ?_⟩
      · simp only [make_dims_multiples, List.headD_cons, hR, hrow0]
        simp [hrm, hcm]
      · intro row hrow
        rw [hcm, Nat.sub_zero]
        exact hC row hrow
    · refine ⟨(row0 :: rest).map (fun row => row.take (C - C % c)), ?_,
        by rw [List.length_map, hR, hrm, Nat.sub_zero], ?_⟩
      · simp only [make_dims_multiples, List.headD_cons, hR, hrow0]
        simp [hrm, hcm]
      · intro row hrow
        obtain ⟨row1, hrow1, rfl⟩ := List.mem_map.mp hrow
        simp only [List.length_take, hC row1 hrow1]
        omega
    · refine ⟨(row0 :: rest).take (R - R % r), ?_,
        by simp only [List.length_take, hR]; omega, ?_⟩
      · simp only [make_dims_multiples, List.headD_cons, hR, hrow0]
        simp [hrm, hcm]
      · intro row hrow
        rw [hcm, Nat.sub_zero]
        exact hC row (List.mem_of_mem_take hrow)
    · refine ⟨((row0 :: rest).take (R - R % r)).map (fun row => row.take (C - C % c)), ?_,
        by simp only [List.length_map, List.length_take, hR]; omega, ?_⟩
      · simp only [make_dims_multiples, List.headD_cons, hR, hrow0]
        simp [hrm, hcm]
      · intro row hrow
        obtain ⟨row1, hrow1, rfl⟩ := List.mem_map.mp hrow
        simp only [List.length_take, hC row1 (List.mem_of_mem_take hrow1)]
        omega

/-- The `"pad"` branch of `_make_dims_multiples`: the result extends the input
to `R + (r - R % r) % r` rows of `C + (c - C % c) % c` entries, the original
region is untouched, and every trailing-edge cell holds `False` for boolean
dtype and NaN otherwise. -/
lemma pad_spec (dtype : Dtype) (data : List (List Val)) (R C r c : Nat)
    (hsh : HasShape data R C) :
    ∃ d', make_dims_multiples dtype data r c "pad" = .ok d' ∧
      d'.length = R + (r - R % r) % r ∧
      (∀ row ∈ d', row.length = C + (c - C % c) % c) ∧
      (∀ i j, i < R + (r - R % r) % r → j < C + (c - C % c) % c →
        (d'.getD i []).getD j Val.nan =
          if i < R ∧ j < C then (data.getD i []).getD j Val.nan
          else (if dtype = Dtype.bool then Val.b false else Val.nan)) := by
  obtain ⟨hR, hC⟩ := hsh
  cases data with
  | nil =>
    simp only [List.length_nil] at hR
    subst hR
    refine ⟨[], ?_, by simp [Nat.mod_self], by simp, ?_⟩
    · simp [make_dims_multiples, Nat.mod_self]
    · intro i j hi _
      simp only [Nat.zero_mod, Nat.sub_zero, Nat.mod_self, Nat.add_zero] at hi
      omega
  | cons row0 rest =>
    have hrow0 : row0.length = C := hC _ (List.mem_cons_self _ _)
    by_cases hpp : (r - R % r) % r > 0 ∨ (c - C % c) % c > 0
    · refine ⟨((row0 :: rest).map (fun row => row ++ List.replicate ((c - C % c) % c)
          (if dtype = Dtype.bool then Val.b false else Val.nan))) ++
          List.replicate ((r - R % r) % r) (List.replicate (C + (c - C % c) % c)
            (if dtype = Dtype.bool then Val.b false else Val.nan)), ?_, ?_, ?_, ?_⟩
      · simp only [make_dims_multiples, List.headD_cons, hR, hrow0]
        rw [if_pos hpp, if_neg (show ¬ ("pad" : String) = "cutoff" by decide),
          if_pos trivial]
      · simp only [List.length_append, List.length_map, List.length_replicate, hR]
      · intro row hrow
        rcases List.mem_append.mp hrow with h | h
        · obtain ⟨row1, hrow1, rfl⟩ := List.mem_map.mp h
          simp [hC row1 hrow1]
        · rw [(List.eq_of_mem_replicate h)]
          simp
      · intro i j hi hj
        by_cases hiR : i < R
        · rw [List.getD_append _ _ _ _ (by simp only [List.length_map, hR]; exact hiR),
            getD_map_lt _ _ _ _ [] (by rw [hR]; exact hiR)]
          have hmem : (row0 :: rest).getD i [] ∈ row0 :: rest :=
            getD_mem_of_lt _ _ _ (by rw [hR]; exact hiR)
          have hlen : ((row0 :: rest).getD i []).length = C := hC _ hmem
          by_cases hjC : j < C
          · rw [List.getD_append _ _ _ _ (by rw [hlen]; exact hjC), if_pos ⟨hiR, hjC⟩]
          · rw [List.getD_append_right _ _ _ _ (by rw [hlen]; omega)]
            rw [hlen]
            rw [getD_replicate_eq]
            rw [if_pos (show j - C < (c - C % c) % c by omega)]
            rw [if_neg (show ¬ (i < R ∧ j < C) by omega)]
        · rw [List.getD_append_right _ _ _ _ (by simp only [List.length_map, hR]; omega)]
          simp only [List.length_map, hR]
          rw [getD_replicate_eq]
          rw [if_pos (show i - R < (r - R % r) % r by omega)]
          rw [getD_replicate_eq]
          rw [if_pos (show j < C + (c - C % c) % c from hj)]
          rw [if_neg (show ¬ (i < R ∧ j < C) by omega)]
    · push_neg at hpp
      obtain ⟨hp1, hp2⟩ := hpp
      have hpR0 : (r - R % r) % r = 0 := by omega
      have hpC0 : (c - C % c) % c = 0 := by omega
      refine ⟨row0 :: rest, ?_, by rw [hpR0, hR, Nat.add_zero], ?_, ?_⟩
      · simp only [make_dims_multiples, List.headD_cons, hR, hrow0]
        rw [if_pos trivial,
          if_neg (show ¬ ((r - R % r) % r > 0 ∨ (c - C % c) % c > 0) by omega),
          if_neg (show ¬ ("pad" : String) = "cutoff" by decide)]
      · intro row hrow
        rw [hpC0, Nat.add_zero]
        exact hC row hrow
      · intro i j hi hj
        rw [hpR0, Nat.add_zero] at hi
        rw [hpC0, Nat.add_zero] at hj
        rw [if_pos ⟨hi, hj⟩]

/-- C4: under the `"pad"` strategy on a 2D array whose dimensions are not
exact multiples of the looks, the reconciled array keeps every original cell
untouched, and every padded trailing-edge cell equals `False` for a boolean
array and the NaN missing-value sentinel for a floating array — never the
zero element. -/
theorem make_dims_multiples_pad_fill (dtype : Dtype) (data : List (List Val))
    (R C r c : Nat) (hsh : HasShape data R C) (hr : 0 < r) (hc : 0 < c)
    (hnm : ¬ (R % r = 0 ∧ C % c = 0)) :
    ∃ res, make_dims_multiples dtype data r c "pad" = .ok res ∧
      res.length = R + (r - R % r) % r ∧
      (∀ row ∈ res, row.length = C + (c - C % c) % c) ∧
      (∀ i j, i < R → j < C →
        (res.getD i []).getD j Val.nan = (data.getD i []).getD j Val.nan) ∧
      (∀ i j, i < R + (r - R % r) % r → j < C + (c - C % c) % c → ¬ (i < R ∧ j < C) →
        (res.getD i []).getD j Val.nan
          = (if dtype = Dtype.bool then Val.b false else Val.nan)) ∧
      Val.nan ≠ Dtype.float.zero := by
  obtain ⟨d', hok, hlen, hrows, hcells⟩ := pad_spec dtype data R C r c hsh
  refine ⟨d', hok, hlen, hrows, ?_, ?_, by simp [Dtype.zero]⟩
  · intro i j hi hj
    rw [hcells i j (by omega) (by omega), if_pos ⟨hi, hj⟩]
  · intro i j hi hj hnij
    rw [hcells i j hi hj, if_neg hnij]

/-- Witness for C4: padding a `1 x 1` float array with looks `(2, 2)`. -/
theorem make_dims_multiples_pad_fill_witness :
    ∃ res, make_dims_multiples Dtype.float [[Val.f 1]] 2 2 "pad" = .ok res ∧
      res.length = 1 + (2 - 1 % 2) % 2 ∧
      (∀ row ∈ res, row.length = 1 + (2 - 1 % 2) % 2) ∧
      (∀ i j, i < 1 → j < 1 →
        (res.getD i []).getD j Val.nan = ([[Val.f 1]].getD i []).getD j Val.nan) ∧
      (∀ i j, i < 1 + (2 - 1 % 2) % 2 → j < 1 + (2 - 1 % 2) % 2 → ¬ (i < 1 ∧ j < 1) →
        (res.getD i []).getD j Val.nan
          = (if Dtype.float = Dtype.bool then Val.b false else Val.nan)) ∧
      Val.nan ≠ Dtype.float.zero :=
  make_dims_multiples_pad_fill Dtype.float [[Val.f 1]] 1 1 2 2
    (by decide) (by decide) (by decide) (by decide)

/-- C3: for a 2D array of shape `(R, C)` and looks `(r, c)` other than
`(1, 1)`, `take_looks` returns `floor(R/r)` rows of `floor(C/c)` entries
under `"cutoff"`, and `ceil(R/r)` rows of `ceil(C/c)` entries under
`"pad"` (the pad strategy first extending the array to exact multiples). -/
theorem take_looks_shape_laws (dtype : Dtype) (data : List (List Val))
    (R C r c : Nat) (f : List Val → Val) (hsh : HasShape data R C)
    (hr : 1 ≤ r) (hc : 1 ≤ c) (hne : ¬ (r = 1 ∧ c = 1)) :
    (∃ res, take_looks (.d2 dtype data) r c f "cutoff" = .ok (.d2 dtype res) ∧
      res.length = R / r ∧ ∀ row ∈ res, row.length = C / c) ∧
    (∃ res, take_looks (.d2 dtype data) r c f "pad" = .ok (.d2 dtype res) ∧
      res.length = (R + r - 1) / r ∧ ∀ row ∈ res, row.length = (C + c - 1) / c) := by
  constructor
  · obtain ⟨d', hok, hlen, hrows⟩ := cutoff_shape dtype data R C r c hsh
    refine ⟨reshape_reduce f r c (d'.length / r) ((d'.headD []).length / c) d'.flatten,
      ?_, ?_, ?_⟩
    · simp only [take_looks, take_looks2d, hok]
      rw [if_neg hne]
    · simp only [reshape_reduce, List.length_map, List.length_range, hlen]
      exact sub_mod_div R r hr
    · intro row hrow
      obtain ⟨i, hi, rfl⟩ := List.mem_map.mp hrow
      simp only [List.length_map, List.length_range]
      have hi' : i < d'.length / r := by
        simpa [reshape_reduce] using List.mem_range.mp hi
      have hd'ne : d' ≠ [] := by
        intro hnil
        rw [hnil] at hi'
        simp at hi'
      obtain ⟨h0, t, hd⟩ := List.exists_cons_of_ne_nil hd'ne
      have hh0 : h0.length = C - C % c :=
        hrows h0 (by rw [hd]; exact List.mem_cons_self _ _)
      rw [hd, List.headD_cons, hh0]
      exact sub_mod_div C c hc
  · obtain ⟨d', hok, hlen, hrows, _⟩ := pad_spec dtype data R C r c hsh
    refine ⟨reshape_reduce f r c (d'.length / r) ((d'.headD []).length / c) d'.flatten,
      ?_, ?_, ?_⟩
    · simp only [take_looks, take_looks2d, hok]
      rw [if_neg hne]
    · simp only [reshape_reduce, List.length_map, List.length_range, hlen]
      exact pad_total_div R r hr
    · intro row hrow
      obtain ⟨i, hi, rfl⟩ := List.mem_map.mp hrow
      simp only [List.length_map, List.length_range]
      have hi' : i < d'.length / r := by
        simpa [reshape_reduce] using List.mem_range.mp hi
      have hd'ne : d' ≠ [] := by
        intro hnil
        rw [hnil] at hi'
        simp at hi'
      obtain ⟨h0, t, hd⟩ := List.exists_cons_of_ne_nil hd'ne
      have hh0 : h0.length = C + (c - C % c) % c :=
        hrows h0 (by rw [hd]; exact List.mem_cons_self _ _)
      rw [hd, List.headD_cons, hh0]
      exact pad_total_div C c hc

/-- Witness for C3: a `5 x 5` array with looks `(2, 2)`: `"cutoff"` gives
shape `(2, 2)` and `"pad"` gives shape `(3, 3)`. -/
theorem take_looks_shape_laws_witness :
    (∃ res, take_looks (.d2 Dtype.float (List.replicate 5 (List.replicate 5 (Val.f 1))))
        2 2 nansum "cutoff" = .ok (.d2 Dtype.float res) ∧
      res.length = 5 / 2 ∧ ∀ row ∈ res, row.length = 5 / 2) ∧
    (∃ res, take_looks (.d2 Dtype.float (List.replicate 5 (List.replicate 5 (Val.f 1))))
        2 2 nansum "pad" = .ok (.d2 Dtype.float res) ∧
      res.length = (5 + 2 - 1) / 2 ∧ ∀ row ∈ res, row.length = (5 + 2 - 1) / 2) :=
  take_looks_shape_laws Dtype.float (List.replicate 5 (List.replicate 5 (Val.f 1)))
    5 5 2 2 nansum (by decide) (by decide) (by decide) (by decide)

/-- C1 (code evaluated at the failing input): the source's 3D recursion
(line 380) omits `edge_strategy`, so `"pad"` is silently replaced by the
default `"cutoff"` on every layer.  A `(1, 3, 3)` stack of ones taken with
looks `(2, 2)` under `"pad"` yields a `(1, 1, 1)` result (the cutoff
behaviour), while `take_looks` on the single `3 x 3` layer with `"pad"`
yields a `2 x 2` layer — so the 3D result is not the stack of per-layer
results with the same edge strategy. -/
theorem take_looks_3d_drops_edge_strategy :
    take_looks (.d3 .float [List.replicate 3 (List.replicate 3 (Val.f 1))]) 2 2 nansum "pad"
      = .ok (.d3 .float [[[Val.f 4]]]) ∧
    take_looks (.d2 .float (List.replicate 3 (List.replicate 3 (Val.f 1)))) 2 2 nansum "pad"
      = .ok (.d2 .float [[Val.f 4, Val.f 2], [Val.f 2, Val.f 1]]) ∧
    (Arr.d3 .float [[[Val.f 4]]])
      ≠ .d3 .float [[[Val.f 4, Val.f 2], [Val.f 2, Val.f 1]]] :=
  ⟨by decide, by decide, by decide⟩

/-- C5 (code evaluated at the failing input): for a 3D array the invalid
edge strategy `"bogus"` is silently dropped by the recursion of line 380
(each layer runs with the default `"cutoff"`), so no error is raised; the
same call on a 2D array raises `ValueError` naming the policy. -/
theorem take_looks_3d_skips_edge_validation :
    take_looks (.d3 .float [[[Val.f 1]]]) 2 2 nansum "bogus" = .ok (.d3 .float [[]]) ∧
    take_looks (.d2 .float [[Val.f 1]]) 2 2 nansum "bogus"
      = .error (.invalidEdgeStrategy "bogus") :=
  ⟨by decide, by decide⟩

/-- C6 (amended): `take_looks(arr, 1, 1, reduction, edge_strategy)` returns
the input array itself for every array, reduction function and edge-strategy
string (including invalid ones), performing no validation; however the
source resolves the backend module (`get_array_module`, line 374) once
before the fast-path check, so the identity path performs one backend
dispatch rather than none. -/
theorem take_looks_identity_fast_path (arr : Arr) (f : List Val → Val) (e : String) :
    take_looks arr 1 1 f e = .ok arr ∧ take_looksDispatches arr 1 1 = 1 :=
  ⟨by simp [take_looks], by simp [take_looksDispatches]⟩

/-- C6 counterexample: the claim as stated — identity result with zero
backend dispatches — is false at a concrete input: the dispatch count on
the identity path is `1`, not `0`. -/
theorem take_looks_identity_dispatch_cex :
    ¬ (take_looks (.d2 .float [[Val.f 1]]) 1 1 nansum "cutoff"
          = .ok (.d2 .float [[Val.f 1]]) ∧
       take_looksDispatches (.d2 .float [[Val.f 1]]) 1 1 = 0) := by
  intro h
  exact absurd h.2 (by decide)

/-- C8: the GPU capability probe returns `false` on every failure of its
three checks — accelerator-library import failure, runtime-version query
failure (`OSError`), device-enumeration failure (`CudaSupportError`) or
zero enumerated devices; being a total `Bool`-valued function it never
propagates an error. -/
theorem gpu_is_available_false_on_failure (env : CudaEnv)
    (h : env.importCupy = .importError ∨
         (∃ m, env.runtimeVersion = .osError m) ∨
         (∃ m, env.gpus = .cudaSupportError m) ∨
         env.gpus = .ok 0) :
    gpu_is_available env = false := by
  obtain ⟨imp, ver, gp⟩ := env
  cases imp <;> cases ver <;> cases gp <;> simp_all [gpu_is_available]

/-- Witness for C8: import failure yields `false` even with a fine runtime
and an enumerated device. -/
theorem gpu_is_available_false_on_failure_witness :
    gpu_is_available ⟨ImportResult.importError, VersionResult.ok (12, 0), GpusResult.ok 1⟩
      = false :=
  gpu_is_available_false_on_failure
    ⟨ImportResult.importError, VersionResult.ok (12, 0), GpusResult.ok 1⟩ (Or.inl rfl)

/-- C9: neither operation writes to any pre-existing array object — after a
call the store agrees with the store before it on every previously
allocated reference (in particular the caller's input buffer is unchanged),
and the returned reference equals the input reference exactly on the
identity fast paths (every non-identity call returns a freshly allocated
array; the sole in-place write, utils.py line 470, targets the buffer
freshly allocated by `xp.zeros` in the same call). -/
theorem no_input_mutation (σ : Store) (rf rl cl : Nat) (f : List Val → Val)
    (e : String) (osh : Nat × Nat) (lk : Option (Nat × Nat)) (q : Nat)
    (hq : q < σ.next) (hrf : rf < σ.next) :
    (match take_looksRef σ rf rl cl f e with
      | .error _ => True
      | .ok (res, σ') => σ'.mem q = σ.mem q ∧ (res = rf ↔ (rl = 1 ∧ cl = 1))) ∧
    ((upsample_nearestRef σ rf osh lk).2.mem q = σ.mem q ∧
      ((upsample_nearestRef σ rf osh lk).1 = rf ↔ (σ.mem rf).trailingShape = osh)) := by
  constructor
  · rw [take_looksRef]
    by_cases hfast : rl = 1 ∧ cl = 1
    · rw [if_pos hfast]
      exact ⟨rfl, by tauto⟩
    · rw [if_neg hfast]
      cases htl : take_looks (σ.mem rf) rl cl f e with
      | error err => trivial
      | ok v =>
        simp only [Store.alloc]
        refine ⟨by rw [if_neg (by omega)], ?_, fun h => absurd h hfast⟩
        intro h
        omega
  · simp only [upsample_nearestRef]
    by_cases hfast : (σ.mem rf).trailingShape = osh
    · rw [if_pos hfast]
      exact ⟨rfl, by tauto⟩
    · rw [if_neg hfast]
      simp only [Store.alloc, Store.write]
      refine ⟨?_, ?_, fun h => absurd h hfast⟩
      · rw [if_neg (by omega), if_neg (by omega), if_neg (by omega)]
      · intro h
        omega

/-- Witness for C9: a non-identity `take_looks` call and a non-identity
`upsample_nearest` call on a store holding one `1 x 1` array at reference
`0` leave that array untouched and return fresh references. -/
theorem no_input_mutation_witness :
    (match take_looksRef ⟨1, fun _ => Arr.d2 Dtype.float [[Val.f 1]]⟩ 0 2 2 nansum "cutoff" with
      | .error _ => True
      | .ok (res, σ') =>
          σ'.mem 0 = (⟨1, fun _ => Arr.d2 Dtype.float [[Val.f 1]]⟩ : Store).mem 0 ∧
          (res = 0 ↔ ((2 : Nat) = 1 ∧ (2 : Nat) = 1))) ∧
    ((upsample_nearestRef ⟨1, fun _ => Arr.d2 Dtype.float [[Val.f 1]]⟩ 0 (2, 2) none).2.mem 0
        = (⟨1, fun _ => Arr.d2 Dtype.float [[Val.f 1]]⟩ : Store).mem 0 ∧
      ((upsample_nearestRef ⟨1, fun _ => Arr.d2 Dtype.float [[Val.f 1]]⟩ 0 (2, 2) none).1 = 0 ↔
        ((⟨1, fun _ => Arr.d2 Dtype.float [[Val.f 1]]⟩ : Store).mem 0).trailingShape = (2, 2))) :=
  no_input_mutation ⟨1, fun _ => Arr.d2 Dtype.float [[Val.f 1]]⟩ 0 2 2 nansum "cutoff"
    (2, 2) none 0 (by decide) (by decide)

end Dolphin
